import Mathlib

set_option maxHeartbeats 1000000

/-!
Shallow embedding of the qwen-code-api gateway (src/oauth.ts, src/server.ts).

Modelling conventions:
* TypeScript optional fields become `Option` values; JavaScript truthiness of
  strings (`undefined` and `""` are falsy) and numbers (`undefined` and `0` are
  falsy) is modelled explicitly by `strTruthy` / `intTruthy`.
* `Date.now()` and the token-refresh buffer are explicit `Int` parameters
  (epoch milliseconds).
* The outcome of the single `fetch` to the OAuth token endpoint is an explicit
  environment value (`FetchOutcome`); the body of a 2xx response is either
  unparsable JSON or a parsed `TokenRefreshResponse`.
* Disk state is threaded explicitly: `readCredentials` is abstracted into the
  `current` argument, and `saveCredentials` appends to a write log instead of
  performing I/O; file permissions and formatting are recorded in a
  `FileWrite` record.
* URLs are modelled over `List Char` by a structural parser/serializer for the
  sublanguage `http(s)://host[/path][?search][#hash]` actually exercised by
  the program (WHATWG percent-encoding, dot-segment removal and host
  case-folding are outside the model; none of the verified claims depend on
  them).
-/

/-- JS truthiness of an optional string: `undefined` and the empty string are falsy. -/
def strTruthy : Option String → Bool
  | none => false
  | some s => !(s == "")

/-- JS truthiness of an optional number: `undefined` and `0` are falsy. -/
def intTruthy : Option Int → Bool
  | none => false
  | some n => !(n == 0)

/-- The credential record stored on disk (interface QwenCredentials, oauth.ts). -/
structure QwenCredentials where
  access_token : Option String
  refresh_token : Option String
  token_type : Option String
  expiry_date : Option Int
  resource_url : Option String
deriving DecidableEq

/-- Parsed JSON body of a 2xx token-endpoint response (interface TokenRefreshResponse). -/
structure TokenRefreshResponse where
  access_token : Option String
  refresh_token : Option String
  token_type : Option String
  expires_in : Option Int
  resource_url : Option String
deriving DecidableEq

/-- Error codes of OAuthCredentialsError raised by the credential store,
plus the missing-access-token check done in server.ts requestUpstream. -/
inductive OAuthErr where
  | missingRefreshToken
  | refreshNetworkError
  | refreshFailed (status : Nat)
  | refreshParseFailed
  | refreshMissingAccessToken
  | missingAccessToken
deriving DecidableEq

/-- Body of the token-endpoint HTTP response: raw text that fails JSON.parse,
or a parsed TokenRefreshResponse. -/
inductive RefreshBody where
  | invalidJson
  | json (t : TokenRefreshResponse)
deriving DecidableEq

/-- Outcome of the `fetch` to the fixed OAuth token endpoint. -/
inductive FetchOutcome where
  | networkError
  | response (status : Nat) (body : RefreshBody)
deriving DecidableEq

/-- Options of the credential store; the credentials file path is abstracted away. -/
structure OAuthCredentialStoreOptions where
  tokenRefreshBufferMs : Int
deriving DecidableEq

deriving instance DecidableEq for Except

/-- Result of one credential-store operation: the returned value or thrown
error, the credentials written to disk (in order), and the number of
token-endpoint network calls performed. -/
structure RefreshResult where
  result : Except OAuthErr QwenCredentials
  writes : List QwenCredentials
  networkCalls : Nat
deriving DecidableEq

/-- OAuthCredentialStore.isTokenValid (oauth.ts lines 217-229): access_token
truthy, expiry_date truthy, and now strictly before expiry minus the buffer. -/
def isTokenValid (opts : OAuthCredentialStoreOptions) (now : Int)
    (credentials : QwenCredentials) : Bool :=
  strTruthy credentials.access_token &&
  intTruthy credentials.expiry_date &&
  decide (now < credentials.expiry_date.getD 0 - opts.tokenRefreshBufferMs)

/-- The expires_in handling of oauth.ts lines 300-303: a positive number from
the response, else a default of 3600 seconds. -/
def expiresInSeconds (tokenData : TokenRefreshResponse) : Int :=
  match tokenData.expires_in with
  | some e => if e > 0 then e else 3600
  | none => 3600

/-- The nextCredentials object literal of oauth.ts lines 305-320:
refresh_token, token_type and resource_url are carried over from the prior
credential when the response omits them; expiry_date is now plus expires_in
in milliseconds. -/
def nextCredentials (now : Int) (tokenData : TokenRefreshResponse)
    (current : QwenCredentials) : QwenCredentials :=
  { access_token := tokenData.access_token
    refresh_token :=
      match tokenData.refresh_token with
      | some s => some s
      | none => current.refresh_token
    token_type :=
      match tokenData.token_type with
      | some s => some s
      | none => current.token_type
    expiry_date := some (now + expiresInSeconds tokenData * 1000)
    resource_url :=
      match tokenData.resource_url with
      | some s => some s
      | none => current.resource_url }

/-- OAuthCredentialStore.refreshCredentials (oauth.ts lines 231-324): guard on
refresh_token, POST to the token endpoint, classify the response, build the
next credential (carrying fields over from `current` when the response omits
them, defaulting expires_in to 3600 s), and save it. -/
def refreshCredentials (now : Int) (env : FetchOutcome)
    (current : QwenCredentials) : RefreshResult :=
  if !strTruthy current.refresh_token then
    ⟨.error .missingRefreshToken, [], 0⟩
  else
    match env with
    | .networkError => ⟨.error .refreshNetworkError, [], 1⟩
    | .response status body =>
      if !(200 ≤ status && status < 300) then
        ⟨.error (.refreshFailed status), [], 1⟩
      else
        match body with
        | .invalidJson => ⟨.error .refreshParseFailed, [], 1⟩
        | .json tokenData =>
          if !strTruthy tokenData.access_token then
            ⟨.error .refreshMissingAccessToken, [], 1⟩
          else
            let next := nextCredentials now tokenData current
            ⟨.ok next, [next], 1⟩

/-- OAuthCredentialStore.getValidCredentials (oauth.ts lines 185-208), serial
view: fast path on a valid token unless forceRefresh, then the refresh_token
guard, then the refresh. The on-disk read is the `current` argument. -/
def getValidCredentials (opts : OAuthCredentialStoreOptions) (now : Int)
    (env : FetchOutcome) (forceRefresh : Bool)
    (current : QwenCredentials) : RefreshResult :=
  if !forceRefresh && isTokenValid opts now current then
    ⟨.ok current, [], 0⟩
  else if !strTruthy current.refresh_token then
    ⟨.error .missingRefreshToken, [], 0⟩
  else
    refreshCredentials now env current

/-- Keys present in `JSON.stringify(credentials, null, 2)`: fields holding
`undefined` are omitted, the rest appear in the declaration order of the
nextCredentials object literal (oauth.ts lines 305-320). -/
def writtenKeys (c : QwenCredentials) : List String :=
  (if c.access_token.isSome then ["access_token"] else []) ++
  (if c.refresh_token.isSome then ["refresh_token"] else []) ++
  (if c.token_type.isSome then ["token_type"] else []) ++
  (if c.resource_url.isSome then ["resource_url"] else []) ++
  (if c.expiry_date.isSome then ["expiry_date"] else [])

/-- Observable shape of one credential-file write performed by
OAuthCredentialStore.saveCredentials (oauth.ts lines 326-335). -/
structure FileWrite where
  keys : List String
  prettyPrinted : Bool
  trailingNewline : Bool
  fileMode : Nat
  dirMode : Nat
deriving DecidableEq

/-- OAuthCredentialStore.saveCredentials: serialize with
`JSON.stringify(credentials, null, 2)` plus a trailing newline, write the file
with mode 0o600 after creating the directory with mode 0o700. -/
def saveCredentials (credentials : QwenCredentials) : FileWrite :=
  { keys := writtenKeys credentials
    prettyPrinted := true
    trailingNewline := true
    fileMode := 0o600
    dirMode := 0o700 }

/-- Error type string placed in the OpenAI error envelope by
handleRequestError (server.ts). -/
inductive ErrType where
  | authenticationError
  | apiError
  | invalidRequestError
deriving DecidableEq

/-- The statusCode field of the OAuthCredentialsError corresponding to each
error code: only refresh_failed carries one (oauth.ts line 279). -/
def oauthErrStatusCode : OAuthErr → Option Nat
  | .refreshFailed status => some status
  | _ => none

/-- OAuthCredentialsError branch of handleRequestError (server.ts lines
306-314): `statusCode && statusCode >= 500 ? 502 : statusCode ?? 401`, with
type authentication_error exactly when the chosen status is 401. -/
def surfaceOAuthError (e : OAuthErr) : Nat × ErrType :=
  let statusCode : Nat :=
    match oauthErrStatusCode e with
    | some s => if s ≠ 0 ∧ 500 ≤ s then 502 else s
    | none => 401
  (statusCode, if statusCode = 401 then .authenticationError else .apiError)

/-- MAX_REQUEST_BODY_BYTES (server.ts line 15). -/
def MAX_REQUEST_BODY_BYTES : Nat := 20 * 1024 * 1024

/-- ASCII uppercase of one character (JS String.toUpperCase restricted to the
ASCII range, which covers HTTP method names). -/
def upperAscii (c : Char) : Char :=
  if 'a' ≤ c ∧ c ≤ 'z' then Char.ofNat (c.toNat - 32) else c

/-- ASCII uppercase of a string. -/
def toUpperAscii (s : String) : String := String.mk (s.data.map upperAscii)

/-- mayHaveBody (server.ts lines 131-134): every method except GET and HEAD,
case-insensitively. -/
def mayHaveBody (method : String) : Bool :=
  let normalized := toUpperAscii method
  !(normalized == "GET") && !(normalized == "HEAD")

/-- HttpRequestError raised while handling a request (server.ts). -/
structure HttpRequestError where
  statusCode : Nat
  code : String
deriving DecidableEq

/-- Chunk-accumulation loop of readRequestBody (server.ts lines 144-157):
running total checked against the cap after each chunk, chunks collected in
order. Bytes are abstracted as naturals. -/
def readBodyAux (total : Nat) (pushed : List (List Nat)) :
    List (List Nat) → Except HttpRequestError (Option (List Nat))
  | [] =>
    if pushed.isEmpty then .ok none
    else .ok (some (pushed.reverse.flatten))
  | chunk :: rest =>
    let totalSize := total + chunk.length
    if totalSize > MAX_REQUEST_BODY_BYTES then
      .error ⟨413, "request_body_too_large"⟩
    else
      readBodyAux totalSize (chunk :: pushed) rest

/-- readRequestBody (server.ts lines 136-164): no body for GET/HEAD, else read
all chunks subject to the cap; an empty chunk list yields no body. -/
def readRequestBody (method : String) (chunks : List (List Nat)) :
    Except HttpRequestError (Option (List Nat)) :=
  if !mayHaveBody method then .ok none
  else readBodyAux 0 [] chunks

/-- Client-visible disposition of one proxied request. -/
inductive ClientResult where
  | relayed (status : Nat)
  | oauthError (e : OAuthErr)
  | httpError (e : HttpRequestError)
deriving DecidableEq

/-- Observable trace of one proxyRequest invocation: token-endpoint calls,
outbound upstream attempts, whether the first response body was cancelled,
the client-visible result, and the final on-disk credential. -/
structure ForwardOutcome where
  refreshCalls : Nat
  attempts : Nat
  canceledFirstBody : Bool
  result : ClientResult
  finalDisk : QwenCredentials
deriving DecidableEq

/-- Disk state after a sequence of credential writes (last write wins). -/
def applyWrites (disk : QwenCredentials) : List QwenCredentials → QwenCredentials
  | [] => disk
  | w :: rest => applyWrites w rest

/-- proxyRequest together with requestUpstream (server.ts lines 166-295):
obtain credentials with forceRefresh=false, require access_token, perform the
first outbound attempt; on any status other than 401 relay it; on 401 cancel
the first body, obtain credentials with forceRefresh=true (the forced refresh)
and retry exactly once, relaying the second response whatever its status.
`resp n` is the upstream status of outbound attempt `n`. -/
def proxyRequest (opts : OAuthCredentialStoreOptions) (now : Int)
    (env : FetchOutcome) (resp : Nat → Nat)
    (disk : QwenCredentials) : ForwardOutcome :=
  let g1 := getValidCredentials opts now env false disk
  let disk1 := applyWrites disk g1.writes
  match g1.result with
  | .error e => ⟨g1.networkCalls, 0, false, .oauthError e, disk1⟩
  | .ok c1 =>
    if !strTruthy c1.access_token then
      ⟨g1.networkCalls, 0, false, .oauthError .missingAccessToken, disk1⟩
    else
      let firstStatus := resp 0
      if firstStatus ≠ 401 then
        ⟨g1.networkCalls, 1, false, .relayed firstStatus, disk1⟩
      else
        let g2 := getValidCredentials opts now env true disk1
        let disk2 := applyWrites disk1 g2.writes
        match g2.result with
        | .error e =>
          ⟨g1.networkCalls + g2.networkCalls, 1, true, .oauthError e, disk2⟩
        | .ok c2 =>
          if !strTruthy c2.access_token then
            ⟨g1.networkCalls + g2.networkCalls, 1, true,
              .oauthError .missingAccessToken, disk2⟩
          else
            ⟨g1.networkCalls + g2.networkCalls, 2, true,
              .relayed (resp 1), disk2⟩

/-- The /v1 handler path of createProxyServer (server.ts lines 408-417): the
request body is read before proxyRequest runs, so a body-size failure reaches
the client with zero upstream attempts and zero refreshes. -/
def handleV1Request (opts : OAuthCredentialStoreOptions) (now : Int)
    (env : FetchOutcome) (resp : Nat → Nat) (disk : QwenCredentials)
    (method : String) (chunks : List (List Nat)) : ForwardOutcome :=
  match readRequestBody method chunks with
  | .error e => ⟨0, 0, false, .httpError e, disk⟩
  | .ok _ => proxyRequest opts now env resp disk

/-- ASCII lowercase of one character, used for the case-insensitive scheme
test `/^https?:\/\//i` of normalizeResourceUrl. -/
def lowerAscii (c : Char) : Char :=
  if 'A' ≤ c ∧ c ≤ 'Z' then Char.ofNat (c.toNat + 32) else c

/-- Characters of the scheme part "https://". -/
def httpsHead : List Char := ['h', 't', 't', 'p', 's', ':', '/', '/']

/-- Characters of the scheme part "http://". -/
def httpHead : List Char := ['h', 't', 't', 'p', ':', '/', '/']

/-- Strip a lowercase pattern from the front of a string,
case-insensitively; some remainder on success. -/
def stripCI : List Char → List Char → Option (List Char)
  | [], s => some s
  | _ :: _, [] => none
  | p :: ps, c :: cs => if lowerAscii c = p then stripCI ps cs else none

/-- Structural model of a WHATWG URL object restricted to the sublanguage
used by the gateway: an http/https scheme, a host (no port, userinfo or
escaping), a path, a search part carrying its leading question mark when
non-empty, and a hash part carrying its leading hash mark. -/
structure Url where
  secure : Bool
  host : List Char
  path : List Char
  search : List Char
  hash : List Char
deriving DecidableEq

/-- Characters that terminate the host part of a URL. -/
def isHostEnd (c : Char) : Bool := c = '/' || c = '?' || c = '#'

/-- Characters the model rejects inside a host (ports, credentials, escapes
and spaces are outside the modelled sublanguage; `new URL` rejects or
transforms them). -/
def isBadHostChar (c : Char) : Bool := c = ':' || c = '@' || c = '\\' || c = ' '

/-- Authority-and-path part of the URL parse: take the host up to the first
`/`, `?` or `#`, then split path, search and hash; an absent path serializes
as "/". -/
def parseAfterScheme (secure : Bool) (rest : List Char) : Option Url :=
  let host := rest.takeWhile (fun c => !isHostEnd c)
  let after := rest.dropWhile (fun c => !isHostEnd c)
  if host.isEmpty || host.any isBadHostChar then none
  else
    let beforeHash := after.takeWhile (fun c => !(c = '#'))
    let hash := after.dropWhile (fun c => !(c = '#'))
    let path := beforeHash.takeWhile (fun c => !(c = '?'))
    let search := beforeHash.dropWhile (fun c => !(c = '?'))
    some ⟨secure, host, if path.isEmpty then ['/'] else path, search, hash⟩

/-- Parse of `new URL(input)` over the modelled sublanguage: split the scheme
case-insensitively and parse the remainder. Returns none where the
constructor would throw. -/
def parseUrl (l : List Char) : Option Url :=
  match stripCI httpsHead l with
  | some rest => parseAfterScheme true rest
  | none =>
    match stripCI httpHead l with
    | some rest => parseAfterScheme false rest
    | none => none

/-- Serialization `url.toString()` of the modelled URL. -/
def serializeUrl (u : Url) : List Char :=
  (if u.secure then httpsHead else httpHead) ++ u.host ++ u.path ++ u.search ++ u.hash

/-- WHATWG pathname setter on a special-scheme URL: assigning the empty
string yields the root path "/" (other normalizations are outside the model). -/
def setPath (p : List Char) : List Char :=
  if p.isEmpty then ['/'] else p

/-- WHATWG search setter: the empty string clears the query, otherwise a
leading question mark is ensured. -/
def setSearch (s : List Char) : List Char :=
  match s with
  | [] => []
  | c :: cs => if c = '?' then c :: cs else '?' :: c :: cs

/-- The regular expression replace `\/+$` of oauth.ts: strip every trailing
slash. -/
def stripTrailingSlashes (l : List Char) : List Char :=
  (l.reverse.dropWhile (fun c => c = '/')).reverse

/-- The regular expression replace `\/$` of oauth.ts line 117: strip one
trailing slash. -/
def dropLastSlash (l : List Char) : List Char :=
  if l.getLast? = some '/' then l.dropLast else l

/-- JS String.trim. -/
def jsTrim (l : List Char) : List Char :=
  ((l.dropWhile Char.isWhitespace).reverse.dropWhile Char.isWhitespace).reverse

/-- The test `/^https?:\/\//i.test(input)` of oauth.ts line 102. -/
def hasProtocol (l : List Char) : Bool :=
  (stripCI httpsHead l).isSome || (stripCI httpHead l).isSome

/-- DEFAULT_DASHSCOPE_BASE_URL (oauth.ts lines 5-6). -/
def defaultDashscopeBaseUrl : List Char :=
  "https://dashscope.aliyuncs.com/compatible-mode/v1".data

/-- Characters of the fixed path segment suffix "/v1". -/
def v1Chars : List Char := ['/', 'v', '1']

/-- The pathname adjustment of normalizeResourceUrl (oauth.ts lines 108-115):
strip trailing slashes; an empty or root path becomes "/v1"; a path already
ending in "/v1" is kept; otherwise "/v1" is appended. -/
def normalizePath (p : List Char) : List Char :=
  let cleanPath := stripTrailingSlashes p
  if cleanPath.isEmpty || cleanPath = ['/'] then v1Chars
  else if v1Chars.isSuffixOf cleanPath then cleanPath
  else cleanPath ++ v1Chars

/-- Post-parse portion of normalizeResourceUrl (oauth.ts lines 105-117):
clear search and hash, canonicalize the path to end in "/v1", serialize and
strip a final slash. -/
def normalizeParsed (normalized : Url) : List Char :=
  dropLastSlash (serializeUrl
    { normalized with path := normalizePath normalized.path,
                      search := [], hash := [] })

/-- normalizeResourceUrl (oauth.ts lines 100-118): default on a missing or
blank value, ensure a scheme, parse, then canonicalize. Returns none where
`new URL` would throw. -/
def normalizeResourceUrl (resourceUrl : Option (List Char)) : Option (List Char) :=
  let trimmed := (resourceUrl.map jsTrim).getD []
  let input := if trimmed.isEmpty then defaultDashscopeBaseUrl else trimmed
  let withProtocol := if hasProtocol input then input else httpsHead ++ input
  (parseUrl withProtocol).map normalizeParsed

/-- The check `requestPath.startsWith('/v1')` of buildUpstreamUrl. -/
def startsWithV1 : List Char → Bool
  | '/' :: 'v' :: '1' :: _ => true
  | _ => false

/-- Failure modes of buildUpstreamUrl: the invalid_proxy_path
OAuthCredentialsError, or a TypeError from `new URL(upstreamBaseUrl)`. -/
inductive BuildUrlError where
  | invalidProxyPath
  | invalidBaseUrl
deriving DecidableEq

/-- buildUpstreamUrl (oauth.ts lines 120-141): require the literal string
front "/v1" on requestPath, parse the base, join the base path (trailing
slashes stripped) with the remainder of requestPath after "/v1", replace the
query wholesale with requestSearch, drop any fragment, serialize. -/
def buildUpstreamUrl (upstreamBaseUrl requestPath requestSearch : List Char) :
    Except BuildUrlError (List Char) :=
  if !startsWithV1 requestPath then .error .invalidProxyPath
  else
    match parseUrl upstreamBaseUrl with
    | none => .error .invalidBaseUrl
    | some upstream =>
      let basePath := stripTrailingSlashes upstream.path
      let suffix := if requestPath = v1Chars then [] else requestPath.drop 3
      .ok (serializeUrl
        { upstream with path := setPath (basePath ++ suffix),
                        search := setSearch requestSearch, hash := [] })

/-- Program counter of one getValidCredentials caller that needs a refresh:
about to inspect the refreshPromise slot, awaiting a refresh operation, or
finished with a credential. -/
inductive CallerPC where
  | ready
  | waiting (op : Nat)
  | done (result : QwenCredentials)
deriving DecidableEq

/-- Process-wide state of the single-flight machinery of
OAuthCredentialStore: the refreshPromise slot (oauth.ts line 144) holding the
identifier of the pending operation if any, the created refresh operations
with their results once settled (each operation performs exactly one
token-endpoint network call), and the interleaved callers. -/
structure SFState where
  slot : Option Nat
  results : List (Option QwenCredentials)
  callers : List CallerPC
deriving DecidableEq

/-- One atomic step of the interleaving: a caller checks the slot (oauth.ts
lines 199-201), the environment settles a pending operation, or a caller whose
operation has settled resumes, taking the result and clearing the slot in its
`finally` (oauth.ts lines 203-207). -/
inductive SFStep where
  | check (i : Nat)
  | settle (op : Nat) (r : QwenCredentials)
  | resume (i : Nat)
deriving DecidableEq

/-- Effect of one step; none when the step is not enabled in this state. -/
def applyStep (s : SFState) (step : SFStep) : Option SFState :=
  match step with
  | .check i =>
    match s.callers.get? i with
    | some .ready =>
      match s.slot with
      | some op => some { s with callers := s.callers.set i (.waiting op) }
      | none =>
        some { slot := some s.results.length,
               results := s.results ++ [none],
               callers := s.callers.set i (.waiting s.results.length) }
    | _ => none
  | .settle op r =>
    match s.results.get? op with
    | some none => some { s with results := s.results.set op (some r) }
    | _ => none
  | .resume i =>
    match s.callers.get? i with
    | some (.waiting op) =>
      match s.results.get? op with
      | some (some r) =>
        some { s with slot := none, callers := s.callers.set i (.done r) }
      | _ => none
    | _ => none

/-- Run a whole interleaving from a state. -/
def runTrace (s : SFState) : List SFStep → Option SFState
  | [] => some s
  | step :: rest =>
    match applyStep s step with
    | some s' => runTrace s' rest
    | none => none

/-- Initial state for n concurrent callers that all need a refresh: empty
slot, no operations, every caller about to inspect the slot. -/
def initState (n : Nat) : SFState :=
  ⟨none, [], List.replicate n .ready⟩

/-- Whether a step is a slot inspection. -/
def isCheck : SFStep → Bool
  | .check _ => true
  | _ => false

/-- Whether a step is a caller resumption. -/
def isResume : SFStep → Bool
  | .resume _ => true
  | _ => false

/-- Whether every caller has finished. -/
def allDone (s : SFState) : Bool :=
  s.callers.all (fun c => match c with | .done _ => true | _ => false)

/-- Invariant holding while no caller has resumed yet: either no operation
was created (slot empty, everyone ready), or exactly one operation exists,
the slot points at it, and every caller is ready or waiting on it. -/
def phase1Inv (s : SFState) : Prop :=
  (s.slot = none ∧ s.results = [] ∧ ∀ c ∈ s.callers, c = CallerPC.ready) ∨
  (s.slot = some 0 ∧ (s.results = [none] ∨ ∃ r, s.results = [some r]) ∧
    ∀ c ∈ s.callers, c = CallerPC.ready ∨ c = CallerPC.waiting 0)

/-- Invariant holding once every caller has attached to operation 0: the
operation either is still pending with the slot occupied, or settled with a
single result that every finished caller carries, the slot being empty as
soon as any caller finished. -/
def phase2Inv (s : SFState) : Prop :=
  (s.results = [none] ∧ s.slot = some 0 ∧
    ∀ c ∈ s.callers, c = CallerPC.waiting 0) ∨
  (∃ r, s.results = [some r] ∧
    (∀ c ∈ s.callers, c = CallerPC.waiting 0 ∨ c = CallerPC.done r) ∧
    ((∃ c ∈ s.callers, c ≠ CallerPC.waiting 0) → s.slot = none) ∧
    (s.slot = some 0 ∨ s.slot = none))

theorem strTruthy_isSome {x : Option String} (h : strTruthy x = true) :
    x.isSome = true := by
  cases x <;> simp_all [strTruthy]

theorem isTokenValid_access {opts : OAuthCredentialStoreOptions} {now : Int}
    {c : QwenCredentials} (h : isTokenValid opts now c = true) :
    strTruthy c.access_token = true := by
  simp only [isTokenValid, Bool.and_eq_true] at h
  exact h.1.1

theorem getValidCredentials_fast (opts : OAuthCredentialStoreOptions)
    (now : Int) (env : FetchOutcome) {c : QwenCredentials}
    (h : isTokenValid opts now c = true) :
    getValidCredentials opts now env false c = ⟨.ok c, [], 0⟩ := by
  simp [getValidCredentials, h]

theorem refreshCredentials_success {current : QwenCredentials}
    {t : TokenRefreshResponse} (now : Int) (s : Nat)
    (hrt : strTruthy current.refresh_token = true)
    (hs1 : 200 ≤ s) (hs2 : s < 300)
    (hat : strTruthy t.access_token = true) :
    refreshCredentials now (.response s (.json t)) current =
      ⟨.ok (nextCredentials now t current), [nextCredentials now t current], 1⟩ := by
  simp [refreshCredentials, hrt, hs1, hs2, hat]

theorem refreshCredentials_calls {current : QwenCredentials} (now : Int)
    (env : FetchOutcome) (hrt : strTruthy current.refresh_token = true) :
    (refreshCredentials now env current).networkCalls = 1 := by
  cases env with
  | networkError => simp [refreshCredentials, hrt]
  | response status body =>
    cases body with
    | invalidJson =>
      simp only [refreshCredentials, hrt, Bool.not_true]
      rw [if_neg (by simp)]
      split <;> rfl
    | json t =>
      simp only [refreshCredentials, hrt, Bool.not_true]
      rw [if_neg (by simp)]
      split
      · rfl
      · split <;> rfl




/-- C3 counterexample: a stored credential whose access_token is present but
empty (`access_token: ""`), with a far-future expiry well outside the buffer,
does not take the fast path: getValidCredentials(false) performs one refresh
network call and does not return the stored credential unchanged, refuting
the claim that presence of access_token plus a valid expiry suffices. -/
theorem getValidCredentials_present_empty_token_counterexample :
    (QwenCredentials.mk (some "") (some "rt") none (some 1000000) none).access_token.isSome = true ∧
    ((0 : Int) < 1000000 - 30000) ∧
    (getValidCredentials ⟨30000⟩ 0
      (.response 200 (.json ⟨some "at", none, none, none, none⟩)) false
      ⟨some "", some "rt", none, some 1000000, none⟩).networkCalls = 1 ∧
    (getValidCredentials ⟨30000⟩ 0
      (.response 200 (.json ⟨some "at", none, none, none, none⟩)) false
      ⟨some "", some "rt", none, some 1000000, none⟩).result ≠
      .ok ⟨some "", some "rt", none, some 1000000, none⟩ := by
  decide

/-- C3 (amended): with real clock values (nonnegative now and buffer), a
stored credential whose access_token is present and non-empty and whose
expiry satisfies now < expiry_date - buffer is returned unchanged by
getValidCredentials(false) with zero network calls; a credential whose
access_token is absent or empty, whose expiry_date is absent, or whose expiry
is within the buffer does not take the fast path: it fails with
MissingRefreshToken when refresh_token is absent or empty, and otherwise
proceeds to the refresh, performing exactly one network call. -/
theorem getValidCredentials_validity_gate
    (opts : OAuthCredentialStoreOptions) (now : Int) (env : FetchOutcome)
    (c : QwenCredentials)
    (hnow : 0 ≤ now) (hbuf : 0 ≤ opts.tokenRefreshBufferMs) :
    (∀ tok e, c.access_token = some tok → tok ≠ "" → c.expiry_date = some e →
       now < e - opts.tokenRefreshBufferMs →
       getValidCredentials opts now env false c = ⟨.ok c, [], 0⟩) ∧
    ((c.access_token = none ∨ c.access_token = some "" ∨ c.expiry_date = none ∨
        (∀ e, c.expiry_date = some e → ¬ now < e - opts.tokenRefreshBufferMs)) →
      ((c.refresh_token = none ∨ c.refresh_token = some "") →
         getValidCredentials opts now env false c =
           ⟨.error .missingRefreshToken, [], 0⟩) ∧
      (∀ rt, c.refresh_token = some rt → rt ≠ "" →
         getValidCredentials opts now env false c = refreshCredentials now env c ∧
         (refreshCredentials now env c).networkCalls = 1)) := by
  constructor
  · intro tok e hat htok hed hlt
    have he0 : e ≠ 0 := by omega
    have hv : isTokenValid opts now c = true := by
      simp [isTokenValid, hat, hed, strTruthy, intTruthy, htok, he0, hlt]
    exact getValidCredentials_fast opts now env hv
  · intro hbad
    have hv : isTokenValid opts now c = false := by
      rcases hbad with h | h | h | h
      · simp [isTokenValid, h, strTruthy]
      · simp [isTokenValid, h, strTruthy]
      · simp [isTokenValid, h, intTruthy]
      · rcases hcd : c.expiry_date with _ | e
        · simp [isTokenValid, hcd, intTruthy]
        · have := h e hcd
          simp [isTokenValid, hcd, intTruthy, this]
    constructor
    · intro hrt
      rcases hrt with h | h <;>
        simp [getValidCredentials, hv, strTruthy, h]
    · intro rt hrt hne
      have htr : strTruthy c.refresh_token = true := by
        simp [strTruthy, hrt, hne]
      constructor
      · simp [getValidCredentials, hv, htr]
      · exact refreshCredentials_calls now env htr

/-- C3 witness: a concrete valid credential takes the fast path, and a
concrete expired credential with a refresh_token performs one network call. -/
theorem getValidCredentials_validity_gate_witness :
    getValidCredentials ⟨30000⟩ 0
      (.response 200 (.json ⟨some "at", none, none, none, none⟩)) false
      ⟨some "tok", some "rt", none, some 1000000, none⟩ =
      ⟨.ok ⟨some "tok", some "rt", none, some 1000000, none⟩, [], 0⟩ ∧
    (refreshCredentials 0
      (.response 200 (.json ⟨some "at", none, none, none, none⟩))
      ⟨some "tok", some "rt", none, some 5, none⟩).networkCalls = 1 := by
  constructor
  · exact (getValidCredentials_validity_gate ⟨30000⟩ 0
      (.response 200 (.json ⟨some "at", none, none, none, none⟩))
      ⟨some "tok", some "rt", none, some 1000000, none⟩
      (by decide) (by decide)).1 "tok" 1000000 rfl (by decide) rfl (by decide)
  · exact (((getValidCredentials_validity_gate ⟨30000⟩ 0
      (.response 200 (.json ⟨some "at", none, none, none, none⟩))
      ⟨some "tok", some "rt", none, some 5, none⟩
      (by decide) (by decide)).2
        (by right; right; right; intro e he; cases he; decide)).2
        "rt" rfl (by decide)).2

/-- C4 counterexample: a successful refresh whose response omits token_type
and resource_url, from a prior credential that also lacks them, persists a
file containing only the three keys access_token, refresh_token and
expiry_date (JSON.stringify drops fields holding undefined), refuting the
claim that the written file always contains exactly the five keys. -/
theorem written_file_five_keys_counterexample :
    (refreshCredentials 0
        (.response 200 (.json ⟨some "at", none, none, none, none⟩))
        ⟨some "old", some "rt", none, some 5, none⟩).writes.map
      (fun w => (saveCredentials w).keys)
      = [["access_token", "refresh_token", "expiry_date"]] ∧
    (saveCredentials (nextCredentials 0 ⟨some "at", none, none, none, none⟩
        ⟨some "old", some "rt", none, some 5, none⟩)).keys ≠
      ["access_token", "refresh_token", "token_type", "expiry_date", "resource_url"] ∧
    "token_type" ∉ (saveCredentials (nextCredentials 0
        ⟨some "at", none, none, none, none⟩
        ⟨some "old", some "rt", none, some 5, none⟩)).keys := by
  decide

/-- C4 (amended): every file persisted after a successful refresh is pretty
printed with a trailing newline, written at owner-only mode 0o600 into a
directory created with owner-only mode 0o700, and always contains the keys
access_token, refresh_token and expiry_date; token_type and resource_url
appear exactly when the refresh response or the prior credential supplies
them. -/
theorem refresh_persists_written_file_shape
    (now : Int) (current : QwenCredentials) (t : TokenRefreshResponse) (s : Nat)
    (hrt : strTruthy current.refresh_token = true)
    (hs1 : 200 ≤ s) (hs2 : s < 300)
    (hat : strTruthy t.access_token = true) :
    (refreshCredentials now (.response s (.json t)) current).writes =
      [nextCredentials now t current] ∧
    (saveCredentials (nextCredentials now t current)).fileMode = 0o600 ∧
    (saveCredentials (nextCredentials now t current)).dirMode = 0o700 ∧
    (saveCredentials (nextCredentials now t current)).prettyPrinted = true ∧
    (saveCredentials (nextCredentials now t current)).trailingNewline = true ∧
    "access_token" ∈ (saveCredentials (nextCredentials now t current)).keys ∧
    "refresh_token" ∈ (saveCredentials (nextCredentials now t current)).keys ∧
    "expiry_date" ∈ (saveCredentials (nextCredentials now t current)).keys ∧
    ("token_type" ∈ (saveCredentials (nextCredentials now t current)).keys ↔
       (t.token_type.isSome = true ∨ current.token_type.isSome = true)) ∧
    ("resource_url" ∈ (saveCredentials (nextCredentials now t current)).keys ↔
       (t.resource_url.isSome = true ∨ current.resource_url.isSome = true)) := by
  refine ⟨by rw [refreshCredentials_success now s hrt hs1 hs2 hat], rfl, rfl, rfl, rfl, ?_, ?_, ?_, ?_, ?_⟩
  · have := strTruthy_isSome hat
    simp [saveCredentials, writtenKeys, nextCredentials, this]
  · have : ((nextCredentials now t current).refresh_token).isSome = true := by
      rcases h : t.refresh_token with _ | v
      · rcases h2 : current.refresh_token with _ | w
        · rw [h2] at hrt; simp [strTruthy] at hrt
        · simp [nextCredentials, h, h2]
      · simp [nextCredentials, h]
    simp [saveCredentials, writtenKeys, this]
  · simp [saveCredentials, writtenKeys, nextCredentials]
  · rcases h : t.token_type with _ | v
    · rcases h2 : current.token_type with _ | w <;>
        simp [saveCredentials, writtenKeys, nextCredentials, h, h2]
    · simp [saveCredentials, writtenKeys, nextCredentials, h]
  · rcases h : t.resource_url with _ | v
    · rcases h2 : current.resource_url with _ | w <;>
        simp [saveCredentials, writtenKeys, nextCredentials, h, h2]
    · simp [saveCredentials, writtenKeys, nextCredentials, h]

/-- C4 witness: concrete instantiation of the amended file-shape theorem. -/
theorem refresh_persists_written_file_shape_witness :
    (refreshCredentials 0
        (.response 200 (.json ⟨some "at", some "rt2", some "Bearer", some 60, some "r.example"⟩))
        ⟨some "old", some "rt", none, some 5, none⟩).writes =
      [nextCredentials 0 ⟨some "at", some "rt2", some "Bearer", some 60, some "r.example"⟩
        ⟨some "old", some "rt", none, some 5, none⟩] ∧
    "token_type" ∈ (saveCredentials (nextCredentials 0
        ⟨some "at", some "rt2", some "Bearer", some 60, some "r.example"⟩
        ⟨some "old", some "rt", none, some 5, none⟩)).keys := by
  have h := refresh_persists_written_file_shape 0
    ⟨some "old", some "rt", none, some 5, none⟩
    ⟨some "at", some "rt2", some "Bearer", some 60, some "r.example"⟩ 200
    (by decide) (by decide) (by decide) (by decide)
  exact ⟨h.1, (h.2.2.2.2.2.2.2.2.1).2 (by decide)⟩

/-- C9: a refresh attempt that fails with any of the four refresh errors
performs no credential-file write, leaving the on-disk credential exactly as
it was; a write happens only on a fully validated success, and then it is
exactly the next credential that is also returned. -/
theorem refresh_failure_atomicity (now : Int) (env : FetchOutcome)
    (current : QwenCredentials) :
    (∀ e, (refreshCredentials now env current).result = .error e →
       (refreshCredentials now env current).writes = [] ∧
       applyWrites current (refreshCredentials now env current).writes = current) ∧
    (∀ next, (refreshCredentials now env current).result = .ok next →
       (refreshCredentials now env current).writes = [next]) := by
  cases hrt : strTruthy current.refresh_token with
  | false => simp [refreshCredentials, hrt, applyWrites]
  | true =>
    cases env with
    | networkError => simp [refreshCredentials, hrt, applyWrites]
    | response status body =>
      cases h2 : (decide (200 ≤ status) && decide (status < 300)) with
      | false => simp [refreshCredentials, hrt, h2, applyWrites]
      | true =>
        cases body with
        | invalidJson => simp [refreshCredentials, hrt, h2, applyWrites]
        | json t =>
          cases hat : strTruthy t.access_token with
          | false => simp [refreshCredentials, hrt, h2, hat, applyWrites]
          | true => simp [refreshCredentials, hrt, h2, hat, applyWrites]

/-- C9 witness: a concrete failing refresh (network error) writes nothing,
and a concrete successful refresh writes exactly the returned credential. -/
theorem refresh_failure_atomicity_witness :
    (refreshCredentials 0 .networkError ⟨some "old", some "rt", none, some 5, none⟩).writes = [] ∧
    applyWrites ⟨some "old", some "rt", none, some 5, none⟩
      (refreshCredentials 0 .networkError ⟨some "old", some "rt", none, some 5, none⟩).writes =
      ⟨some "old", some "rt", none, some 5, none⟩ ∧
    (refreshCredentials 0 (.response 200 (.json ⟨some "at", none, none, none, none⟩))
        ⟨some "old", some "rt", none, some 5, none⟩).writes =
      [nextCredentials 0 ⟨some "at", none, none, none, none⟩
        ⟨some "old", some "rt", none, some 5, none⟩] := by
  have h1 := (refresh_failure_atomicity 0 .networkError
    ⟨some "old", some "rt", none, some 5, none⟩).1 .refreshNetworkError (by decide)
  have h2 := (refresh_failure_atomicity 0
    (.response 200 (.json ⟨some "at", none, none, none, none⟩))
    ⟨some "old", some "rt", none, some 5, none⟩).2
    (nextCredentials 0 ⟨some "at", none, none, none, none⟩
      ⟨some "old", some "rt", none, some 5, none⟩) (by decide)
  exact ⟨h1.1, h1.2, h2⟩

/-- C8: a token-endpoint response with a non-2xx status makes the refresh
fail with RefreshFailed carrying that status, and handleRequestError surfaces
it with the upstream status except that statuses of at least 500 become 502,
typing it authentication_error exactly when the surfaced status is 401. -/
theorem refreshFailed_surfacing (now : Int) (current : QwenCredentials)
    (s : Nat) (body : RefreshBody)
    (hrt : strTruthy current.refresh_token = true)
    (hs : ¬(200 ≤ s ∧ s < 300)) (hvalid : 100 ≤ s) :
    (refreshCredentials now (.response s body) current).result =
      .error (.refreshFailed s) ∧
    surfaceOAuthError (.refreshFailed s) =
      (if 500 ≤ s then 502 else s,
       if s = 401 then .authenticationError else .apiError) := by
  constructor
  · have hcond : (200 ≤ s && s < 300) = false := by
      rcases Nat.lt_or_ge s 200 with h | h
      · simp [Nat.not_le.mpr h]
      · have : ¬ s < 300 := fun hlt => hs ⟨h, hlt⟩
        simp [this]
    simp [refreshCredentials, hrt, hcond]
  · have hne : s ≠ 0 := by omega
    rcases Nat.lt_or_ge s 500 with h | h
    · have h401 : ¬ 500 ≤ s := Nat.not_le.mpr h
      by_cases h4 : s = 401
      · simp [surfaceOAuthError, oauthErrStatusCode, hne, h401, h4]
      · simp [surfaceOAuthError, oauthErrStatusCode, hne, h401, h4]
    · have h4 : s ≠ 401 := by omega
      simp [surfaceOAuthError, oauthErrStatusCode, hne, h, h4]

/-- C8 witness: a 503 refresh failure surfaces as 502 api_error and a 401
refresh failure surfaces as 401 authentication_error. -/
theorem refreshFailed_surfacing_witness :
    (refreshCredentials 0 (.response 503 .invalidJson)
        ⟨some "old", some "rt", none, some 5, none⟩).result =
      .error (.refreshFailed 503) ∧
    surfaceOAuthError (.refreshFailed 503) = (502, .apiError) ∧
    surfaceOAuthError (.refreshFailed 401) = (401, .authenticationError) := by
  have h1 := refreshFailed_surfacing 0 ⟨some "old", some "rt", none, some 5, none⟩
    503 .invalidJson (by decide) (by decide) (by decide)
  have h2 := refreshFailed_surfacing 0 ⟨some "old", some "rt", none, some 5, none⟩
    401 .invalidJson (by decide) (by decide) (by decide)
  refine ⟨h1.1, ?_, ?_⟩
  · have := h1.2
    simpa using this
  · have := h2.2
    simpa using this

/-- C2: starting from a valid stored credential (so the non-forced first
getValidCredentials performs no refresh) with a refresh_token and a working
token endpoint, the forwarder makes a first outbound attempt with no forced
refresh; when its status is not 401 it relays it with one attempt, zero
refresh calls and no body cancellation; when it is 401 it cancels the first
body, performs exactly one (forced) refresh network call and exactly one
retry — two attempts in total — and relays the second response verbatim,
whatever its status. -/
theorem proxyRequest_retry_on_401
    (opts : OAuthCredentialStoreOptions) (now : Int) (disk : QwenCredentials)
    (t : TokenRefreshResponse) (s : Nat) (resp : Nat → Nat)
    (hvalid : isTokenValid opts now disk = true)
    (hrt : strTruthy disk.refresh_token = true)
    (hs1 : 200 ≤ s) (hs2 : s < 300)
    (hat : strTruthy t.access_token = true) :
    (resp 0 ≠ 401 →
       proxyRequest opts now (.response s (.json t)) resp disk =
         ⟨0, 1, false, .relayed (resp 0), disk⟩) ∧
    (resp 0 = 401 →
       proxyRequest opts now (.response s (.json t)) resp disk =
         ⟨1, 2, true, .relayed (resp 1), nextCredentials now t disk⟩) := by
  have hfast := getValidCredentials_fast opts now (.response s (.json t)) hvalid
  have hacc := isTokenValid_access hvalid
  have hforce : getValidCredentials opts now (.response s (.json t)) true disk =
      ⟨.ok (nextCredentials now t disk), [nextCredentials now t disk], 1⟩ := by
    simp [getValidCredentials, hrt,
      refreshCredentials_success now s hrt hs1 hs2 hat]
  have hacc2 : strTruthy (nextCredentials now t disk).access_token = true := by
    simpa [nextCredentials] using hat
  constructor
  · intro h
    simp [proxyRequest, hfast, hacc, applyWrites, h]
  · intro h
    simp [proxyRequest, hfast, hacc, hforce, hacc2, applyWrites, h]

/-- C2 witness: with a valid stored credential, a concrete 401-then-200
exchange yields one refresh, two attempts, a cancelled first body and a
relayed 200; a concrete straight 200 yields one attempt and no refresh. -/
theorem proxyRequest_retry_on_401_witness :
    proxyRequest ⟨30000⟩ 0
      (.response 200 (.json ⟨some "at", none, none, none, none⟩))
      (fun n => if n = 0 then 401 else 200)
      ⟨some "tok", some "rt", none, some 1000000, none⟩ =
      ⟨1, 2, true, .relayed 200,
        nextCredentials 0 ⟨some "at", none, none, none, none⟩
          ⟨some "tok", some "rt", none, some 1000000, none⟩⟩ ∧
    proxyRequest ⟨30000⟩ 0
      (.response 200 (.json ⟨some "at", none, none, none, none⟩))
      (fun _ => 200)
      ⟨some "tok", some "rt", none, some 1000000, none⟩ =
      ⟨0, 1, false, .relayed 200,
        ⟨some "tok", some "rt", none, some 1000000, none⟩⟩ := by
  constructor
  · exact (proxyRequest_retry_on_401 ⟨30000⟩ 0
      ⟨some "tok", some "rt", none, some 1000000, none⟩
      ⟨some "at", none, none, none, none⟩ 200
      (fun n => if n = 0 then 401 else 200)
      (by decide) (by decide) (by decide) (by decide) (by decide)).2 rfl
  · exact (proxyRequest_retry_on_401 ⟨30000⟩ 0
      ⟨some "tok", some "rt", none, some 1000000, none⟩
      ⟨some "at", none, none, none, none⟩ 200
      (fun _ => 200)
      (by decide) (by decide) (by decide) (by decide) (by decide)).1 (by decide)

theorem readBodyAux_ok :
    ∀ (chunks : List (List Nat)) (total : Nat) (pushed : List (List Nat)),
      total + (chunks.map List.length).sum ≤ MAX_REQUEST_BODY_BYTES →
      ∃ b, readBodyAux total pushed chunks = .ok b := by
  intro chunks
  induction chunks with
  | nil =>
    intro total pushed _
    unfold readBodyAux
    split
    · exact ⟨none, rfl⟩
    · exact ⟨some pushed.reverse.flatten, rfl⟩
  | cons c rest ih =>
    intro total pushed h
    simp only [List.map_cons, List.sum_cons] at h
    have hle : ¬ total + c.length > MAX_REQUEST_BODY_BYTES := by omega
    have := ih (total + c.length) (c :: pushed) (by omega)
    simpa [readBodyAux, hle] using this

theorem readBodyAux_err :
    ∀ (chunks : List (List Nat)) (total : Nat) (pushed : List (List Nat)),
      total ≤ MAX_REQUEST_BODY_BYTES →
      MAX_REQUEST_BODY_BYTES < total + (chunks.map List.length).sum →
      readBodyAux total pushed chunks = .error ⟨413, "request_body_too_large"⟩ := by
  intro chunks
  induction chunks with
  | nil =>
    intro total pushed h1 h2
    simp only [List.map_nil, List.sum_nil] at h2
    omega
  | cons c rest ih =>
    intro total pushed h1 h2
    simp only [List.map_cons, List.sum_cons] at h2
    by_cases hgt : total + c.length > MAX_REQUEST_BODY_BYTES
    · simp [readBodyAux, hgt]
    · have := ih (total + c.length) (c :: pushed) (by omega) (by omega)
      simpa [readBodyAux, hgt] using this

/-- C7: a GET or HEAD request never reads a body; any body whose total size
is at most the 20 MiB cap is read successfully; and for a body-bearing method
a body exceeding the cap fails with RequestBodyTooLarge (413) and the request
finishes with zero upstream attempts and zero refresh calls. -/
theorem readRequestBody_cap (opts : OAuthCredentialStoreOptions) (now : Int)
    (env : FetchOutcome) (resp : Nat → Nat) (disk : QwenCredentials)
    (method : String) (chunks : List (List Nat)) :
    ((method = "GET" ∨ method = "HEAD") → readRequestBody method chunks = .ok none) ∧
    ((chunks.map List.length).sum ≤ MAX_REQUEST_BODY_BYTES →
       ∃ b, readRequestBody method chunks = .ok b) ∧
    (mayHaveBody method = true →
       MAX_REQUEST_BODY_BYTES < (chunks.map List.length).sum →
       readRequestBody method chunks = .error ⟨413, "request_body_too_large"⟩ ∧
       handleV1Request opts now env resp disk method chunks =
         ⟨0, 0, false, .httpError ⟨413, "request_body_too_large"⟩, disk⟩) := by
  refine ⟨?_, ?_, ?_⟩
  · rintro (h | h) <;> subst h <;>
      simp [readRequestBody, show mayHaveBody "GET" = false from by decide,
            show mayHaveBody "HEAD" = false from by decide]
  · intro h
    by_cases hm : mayHaveBody method
    · have := readBodyAux_ok chunks 0 [] (by simpa using h)
      simpa [readRequestBody, hm] using this
    · exact ⟨none, by simp [readRequestBody, hm]⟩
  · intro hm h
    have he := readBodyAux_err chunks 0 [] (by simp [MAX_REQUEST_BODY_BYTES]) (by simpa using h)
    exact ⟨by simp [readRequestBody, hm, he],
           by simp [handleV1Request, readRequestBody, hm, he]⟩

/-- C7 witness: a single chunk one byte over the cap fails a POST with 413
and zero upstream attempts, while a GET with the same stream reads no body. -/
theorem readRequestBody_cap_witness :
    readRequestBody "POST" [List.replicate 20971521 0] =
      .error ⟨413, "request_body_too_large"⟩ ∧
    (handleV1Request ⟨0⟩ 0 .networkError (fun _ => 200)
        ⟨none, none, none, none, none⟩ "POST" [List.replicate 20971521 0]) =
      ⟨0, 0, false, .httpError ⟨413, "request_body_too_large"⟩,
        ⟨none, none, none, none, none⟩⟩ ∧
    readRequestBody "GET" [List.replicate 20971521 0] = .ok none := by
  have h := readRequestBody_cap ⟨0⟩ 0 .networkError (fun _ => 200)
    ⟨none, none, none, none, none⟩ "POST" [List.replicate 20971521 0]
  have hg := readRequestBody_cap ⟨0⟩ 0 .networkError (fun _ => 200)
    ⟨none, none, none, none, none⟩ "GET" [List.replicate 20971521 0]
  have hbig : MAX_REQUEST_BODY_BYTES <
      (([List.replicate 20971521 0].map List.length).sum : Nat) := by
    rw [List.map_cons, List.map_nil, List.length_replicate, List.sum_cons,
      List.sum_nil, MAX_REQUEST_BODY_BYTES]
    norm_num
  have h3 := h.2.2 (by decide) hbig
  exact ⟨h3.1, h3.2, hg.1 (Or.inl rfl)⟩

theorem drop_three_of_v1 : (v1Chars : List Char).drop 3 = [] := rfl

theorem suffix_eq_drop_three (requestPath : List Char) :
    (if requestPath = v1Chars then [] else requestPath.drop 3) =
      requestPath.drop 3 := by
  by_cases he : requestPath = v1Chars
  · rw [if_pos he, he, drop_three_of_v1]
  · rw [if_neg he]

/-- C5: buildUpstreamUrl fails with InvalidProxyPath exactly on request paths
not starting with "/v1"; otherwise the produced URL has the base path with
trailing slashes stripped concatenated with the remainder of the request path
after "/v1" (empty when the request path is exactly "/v1"), the query
replaced wholesale by requestSearch and the fragment dropped; the two
concrete examples of the specification hold. -/
theorem buildUpstreamUrl_spec :
    (∀ base requestPath requestSearch, startsWithV1 requestPath = false →
       buildUpstreamUrl base requestPath requestSearch = .error .invalidProxyPath) ∧
    (∀ base u requestPath requestSearch,
       parseUrl base = some u → startsWithV1 requestPath = true →
       buildUpstreamUrl base requestPath requestSearch =
         .ok (serializeUrl ⟨u.secure, u.host,
           setPath (stripTrailingSlashes u.path ++
             (if requestPath = v1Chars then [] else requestPath.drop 3)),
           setSearch requestSearch, []⟩)) ∧
    buildUpstreamUrl "https://x.com/v1".data "/v1/chat/completions".data "?a=1".data
      = .ok "https://x.com/v1/chat/completions?a=1".data ∧
    buildUpstreamUrl "https://x.com/v1".data "/v1".data []
      = .ok "https://x.com/v1".data := by
  refine ⟨?_, ?_, by decide, by decide⟩
  · intro base requestPath requestSearch h
    simp [buildUpstreamUrl, h]
  · intro base u requestPath requestSearch hp h
    simp [buildUpstreamUrl, h, hp]

/-- C5 witness: concrete instantiations of both the error part and the
compositional part of the buildUpstreamUrl specification. -/
theorem buildUpstreamUrl_spec_witness :
    buildUpstreamUrl "https://x.com/v1".data "/other".data []
      = .error .invalidProxyPath ∧
    buildUpstreamUrl "https://x.com/v1/".data "/v1/models".data "?q=2".data
      = .ok (serializeUrl ⟨true, "x.com".data,
          setPath (stripTrailingSlashes "/v1/".data ++ "/models".data),
          setSearch "?q=2".data, []⟩) := by
  constructor
  · exact buildUpstreamUrl_spec.1 "https://x.com/v1".data "/other".data []
      (by decide)
  · have h := buildUpstreamUrl_spec.2.1 "https://x.com/v1/".data
      ⟨true, "x.com".data, "/v1/".data, [], []⟩ "/v1/models".data "?q=2".data
      (by decide) (by decide)
    rw [h]
    decide

/-- C10: the precondition of buildUpstreamUrl is a literal string-front test,
not a path-segment test: every request path beginning with the characters
"/v1" passes the check, and the produced path is the stripped base path
concatenated directly with the characters after "/v1"; in particular
"/v1foo" is accepted and maps base "https://x.com/v1" to
"https://x.com/v1foo". -/
theorem buildUpstreamUrl_literal_front_test :
    (∀ base u requestPath requestSearch,
       parseUrl base = some u → startsWithV1 requestPath = true →
       buildUpstreamUrl base requestPath requestSearch =
         .ok (serializeUrl ⟨u.secure, u.host,
           setPath (stripTrailingSlashes u.path ++ requestPath.drop 3),
           setSearch requestSearch, []⟩)) ∧
    startsWithV1 "/v1foo".data = true ∧
    buildUpstreamUrl "https://x.com/v1".data "/v1foo".data []
      = .ok "https://x.com/v1foo".data := by
  refine ⟨?_, by decide, by decide⟩
  intro base u requestPath requestSearch hp h
  rw [← suffix_eq_drop_three requestPath]
  simp [buildUpstreamUrl, h, hp]

/-- C10 witness: concrete instantiation of the literal-front composition on a
request path where "/v1" is not a complete path segment. -/
theorem buildUpstreamUrl_literal_front_test_witness :
    buildUpstreamUrl "https://x.com/v1".data "/v1foo".data "?b=2".data
      = .ok (serializeUrl ⟨true, "x.com".data,
          setPath (stripTrailingSlashes "/v1".data ++ "foo".data),
          setSearch "?b=2".data, []⟩) := by
  have h := buildUpstreamUrl_literal_front_test.1 "https://x.com/v1".data
    ⟨true, "x.com".data, "/v1".data, [], []⟩ "/v1foo".data "?b=2".data
    (by decide) (by decide)
  rw [h]
  decide

theorem lowerAscii_httpsHead : ∀ c ∈ httpsHead, lowerAscii c = c := by decide

theorem lowerAscii_httpHead : ∀ c ∈ httpHead, lowerAscii c = c := by decide

theorem stripCI_self_append :
    ∀ (pat rest : List Char), (∀ c ∈ pat, lowerAscii c = c) →
      stripCI pat (pat ++ rest) = some rest := by
  intro pat
  induction pat with
  | nil => intro rest _; rfl
  | cons a as ih =>
    intro rest h
    have ha : lowerAscii a = a := h a (List.mem_cons_self a as)
    simp only [List.cons_append, stripCI, ha, if_pos]
    exact ih rest (fun c hc => h c (List.mem_cons_of_mem a hc))

theorem stripCI_https_of_http (rest : List Char) :
    stripCI httpsHead (httpHead ++ rest) = none := by
  have e1 : lowerAscii 'h' = 'h' := by decide
  have e2 : lowerAscii 't' = 't' := by decide
  have e3 : lowerAscii 'p' = 'p' := by decide
  have e4 : lowerAscii ':' = ':' := by decide
  show stripCI httpsHead ('h' :: 't' :: 't' :: 'p' :: ':' :: '/' :: '/' :: rest) = none
  simp only [httpsHead, stripCI, e1, e2, e3, e4, if_pos]
  rw [if_neg (by decide)]

theorem takeWhile_append_of (p : Char → Bool) :
    ∀ (a b : List Char), (∀ c ∈ a, p c = true) →
      (∀ c, b.head? = some c → p c = false) →
      (a ++ b).takeWhile p = a ∧ (a ++ b).dropWhile p = b := by
  intro a
  induction a with
  | nil =>
    intro b _ hb
    cases b with
    | nil => exact ⟨rfl, rfl⟩
    | cons d t =>
      have hd := hb d rfl
      exact ⟨by simp [List.takeWhile_cons, hd], by simp [List.dropWhile_cons, hd]⟩
  | cons x xs ih =>
    intro b ha hb
    have hx : p x = true := ha x (List.mem_cons_self x xs)
    have hrest := ih b (fun c hc => ha c (List.mem_cons_of_mem x hc)) hb
    exact ⟨by simp [List.takeWhile_cons, hx, hrest.1],
           by simp [List.dropWhile_cons, hx, hrest.2]⟩

theorem takeWhile_all (p : Char → Bool) (l : List Char)
    (h : ∀ c ∈ l, p c = true) :
    l.takeWhile p = l ∧ l.dropWhile p = [] := by
  have := takeWhile_append_of p l [] h (fun c hc => by cases hc)
  simpa using this

theorem head?_takeWhile_imp {p : Char → Bool} {l : List Char} {c : Char}
    (h : (l.takeWhile p).head? = some c) : l.head? = some c ∧ p c = true := by
  cases l with
  | nil => simp at h
  | cons a t =>
    by_cases hp : p a
    · rw [List.takeWhile_cons, if_pos hp] at h
      simp only [List.head?_cons, Option.some.injEq] at h
      subst h
      exact ⟨rfl, hp⟩
    · rw [List.takeWhile_cons, if_neg hp] at h
      simp at h

theorem head?_dropWhile_false {p : Char → Bool} :
    ∀ {l : List Char} {c : Char}, (l.dropWhile p).head? = some c → p c = false := by
  intro l
  induction l with
  | nil => intro c h; simp at h
  | cons a t ih =>
    intro c h
    by_cases hp : p a
    · rw [List.dropWhile_cons, if_pos hp] at h
      exact ih h
    · rw [List.dropWhile_cons, if_neg hp] at h
      simp only [List.head?_cons, Option.some.injEq] at h
      subst h
      exact Bool.eq_false_iff.mpr hp

theorem stripTrailingSlashes_id {l : List Char}
    (h : l.getLast? ≠ some '/') : stripTrailingSlashes l = l := by
  unfold stripTrailingSlashes
  cases hr : l.reverse with
  | nil =>
    have : l = [] := by simpa using congrArg List.reverse hr
    simp [this]
  | cons a t =>
    have ha : l.getLast? = some a := by
      rw [← List.head?_reverse, hr, List.head?_cons]
    have hne : ¬ (a = '/') := by
      intro e
      exact h (by rw [ha, e])
    rw [List.dropWhile_cons, if_neg (by simpa using hne), ← hr,
      List.reverse_reverse]

theorem stripTrailingSlashes_mem {l : List Char} {c : Char}
    (h : c ∈ stripTrailingSlashes l) : c ∈ l := by
  unfold stripTrailingSlashes at h
  rw [List.mem_reverse] at h
  have := List.Sublist.mem h (List.dropWhile_sublist _)
  exact List.mem_reverse.mp this

theorem getLast?_of_suffix {D m : List Char} (h : D <:+ m) (hne : D ≠ []) :
    D.getLast? = m.getLast? := by
  obtain ⟨t, ht⟩ := h
  rw [← ht, List.getLast?_append_of_ne_nil t hne]

theorem stripTrailingSlashes_head {l : List Char}
    (hne : stripTrailingSlashes l ≠ []) :
    (stripTrailingSlashes l).head? = l.head? := by
  unfold stripTrailingSlashes at hne ⊢
  have hD : l.reverse.dropWhile (fun c => c = '/') ≠ [] := by
    intro e; exact hne (by rw [e]; rfl)
  rw [List.head?_reverse, ← List.getLast?_reverse l]
  exact getLast?_of_suffix (List.dropWhile_suffix _) hD

theorem stripTrailingSlashes_getLast {l : List Char}
    (hne : stripTrailingSlashes l ≠ []) :
    ∃ c, (stripTrailingSlashes l).getLast? = some c ∧ c ≠ '/' := by
  unfold stripTrailingSlashes at hne ⊢
  have hD : l.reverse.dropWhile (fun c => c = '/') ≠ [] := by
    intro e; exact hne (by rw [e]; rfl)
  cases hd : (l.reverse.dropWhile (fun c => c = '/')).head? with
  | none =>
    cases hdrop : l.reverse.dropWhile (fun c => c = '/') with
    | nil => exact absurd hdrop hD
    | cons a t => rw [hdrop] at hd; cases hd
  | some c =>
    have hc := head?_dropWhile_false hd
    refine ⟨c, ?_, by simpa using hc⟩
    rw [List.getLast?_reverse, hd]

theorem normalizePath_good {p : List Char}
    (hp : p.head? = some '/') (hq : ∀ c ∈ p, c ≠ '?' ∧ c ≠ '#') :
    (normalizePath p).head? = some '/' ∧
    (∀ c ∈ normalizePath p, c ≠ '?' ∧ c ≠ '#') ∧
    v1Chars <:+ normalizePath p ∧
    (normalizePath p).getLast? = some '1' := by
  unfold normalizePath
  by_cases h0 : ((stripTrailingSlashes p).isEmpty ||
      decide (stripTrailingSlashes p = ['/'])) = true
  · rw [if_pos h0]
    exact ⟨by decide, by decide, List.suffix_refl _, by decide⟩
  · rw [if_neg h0]
    have hne : stripTrailingSlashes p ≠ [] := by
      intro e; exact h0 (by rw [e]; rfl)
    have hhead : (stripTrailingSlashes p).head? = some '/' := by
      rw [stripTrailingSlashes_head hne, hp]
    have hmem : ∀ c ∈ stripTrailingSlashes p, c ≠ '?' ∧ c ≠ '#' :=
      fun c hc => hq c (stripTrailingSlashes_mem hc)
    by_cases hsuf : v1Chars.isSuffixOf (stripTrailingSlashes p) = true
    · rw [if_pos hsuf]
      have hv1 := List.isSuffixOf_iff_suffix.mp hsuf
      refine ⟨hhead, hmem, hv1, ?_⟩
      rw [← getLast?_of_suffix hv1 (by decide)]
      decide
    · rw [if_neg hsuf]
      refine ⟨?_, ?_, List.suffix_append _ _, ?_⟩
      · cases hc : stripTrailingSlashes p with
        | nil => exact absurd hc hne
        | cons a t =>
          rw [hc] at hhead
          simpa using hhead
      · intro c hc
        rcases List.mem_append.mp hc with h | h
        · exact hmem c h
        · simp only [v1Chars, List.mem_cons, List.not_mem_nil, or_false] at h
          rcases h with h | h | h <;> subst h <;> exact ⟨by decide, by decide⟩
      · rw [List.getLast?_append_of_ne_nil (stripTrailingSlashes p) (by decide)]
        decide

theorem normalizePath_idem {p : List Char}
    (h1 : v1Chars <:+ p) (h2 : p.getLast? = some '1') :
    normalizePath p = p := by
  have hs : stripTrailingSlashes p = p :=
    stripTrailingSlashes_id (by rw [h2]; decide)
  have hne : p ≠ [] := by intro e; rw [e] at h2; cases h2
  have hsl : p ≠ ['/'] := by intro e; rw [e] at h2; simp at h2
  unfold normalizePath
  rw [hs, if_neg (by simp [List.isEmpty_iff, hne, hsl]),
    if_pos (List.isSuffixOf_iff_suffix.mpr h1)]

theorem parseAfterScheme_good {b : Bool} {rest : List Char} {u : Url}
    (h : parseAfterScheme b rest = some u) :
    u.secure = b ∧ u.host ≠ [] ∧
    (∀ c ∈ u.host, isHostEnd c = false ∧ isBadHostChar c = false) ∧
    u.path ≠ [] ∧ u.path.head? = some '/' ∧
    (∀ c ∈ u.path, c ≠ '?' ∧ c ≠ '#') := by
  simp only [parseAfterScheme] at h
  by_cases hg : ((rest.takeWhile fun c => !isHostEnd c).isEmpty ||
      (rest.takeWhile fun c => !isHostEnd c).any isBadHostChar) = true
  · rw [if_pos hg] at h; cases h
  · rw [if_neg hg] at h
    rw [Bool.or_eq_true, not_or] at hg
    obtain ⟨hE, hA⟩ := hg
    rw [Option.some.injEq] at h
    subst h
    refine ⟨rfl, ?_, ?_, ?_, ?_, ?_⟩
    · simpa [List.isEmpty_iff] using hE
    · intro c hc
      constructor
      · have := List.mem_takeWhile_imp hc
        simpa using this
      · by_cases hb : isBadHostChar c = true
        · exact absurd (List.any_eq_true.mpr ⟨c, hc, hb⟩) hA
        · simpa using hb
    · by_cases hp0 : (((rest.dropWhile fun c => !isHostEnd c).takeWhile
          fun c => !(c = '#')).takeWhile fun c => !(c = '?')).isEmpty = true
      · simp [hp0]
      · simp only [hp0, if_neg, Bool.false_eq_true, not_false_iff]
        simpa [List.isEmpty_iff] using hp0
    · by_cases hp0 : (((rest.dropWhile fun c => !isHostEnd c).takeWhile
          fun c => !(c = '#')).takeWhile fun c => !(c = '?')).isEmpty = true
      · simp [hp0]
      · have hne : (((rest.dropWhile fun c => !isHostEnd c).takeWhile
            fun c => !(c = '#')).takeWhile fun c => !(c = '?')) ≠ [] := by
          simpa [List.isEmpty_iff] using hp0
        cases hc : (((rest.dropWhile fun c => !isHostEnd c).takeWhile
            fun c => !(c = '#')).takeWhile fun c => !(c = '?')).head? with
        | none =>
          cases hl : (((rest.dropWhile fun c => !isHostEnd c).takeWhile
              fun c => !(c = '#')).takeWhile fun c => !(c = '?')) with
          | nil => exact absurd hl hne
          | cons a t => rw [hl] at hc; cases hc
        | some c =>
          have h1 := head?_takeWhile_imp hc
          have h2 := head?_takeWhile_imp h1.1
          have h3 := head?_dropWhile_false h2.1
          have hcq : ¬ (c = '?') := by simpa using h1.2
          have hch : ¬ (c = '#') := by simpa using h2.2
          have hhe : isHostEnd c = true := by simpa using h3
          have hcs : c = '/' := by
            simp only [isHostEnd, Bool.or_eq_true, decide_eq_true_eq] at hhe
            tauto
          simp [hp0, hc, hcs]
    · intro c hc
      by_cases hp0 : (((rest.dropWhile fun c => !isHostEnd c).takeWhile
          fun c => !(c = '#')).takeWhile fun c => !(c = '?')).isEmpty = true
      · rw [if_pos hp0] at hc
        simp only [List.mem_cons, List.not_mem_nil, or_false] at hc
        subst hc
        exact ⟨by decide, by decide⟩
      · rw [if_neg hp0] at hc
        have h1 : ¬ (c = '?') := by
          simpa using List.mem_takeWhile_imp hc
        have h2 : ¬ (c = '#') := by
          have hmem := List.Sublist.mem hc (List.takeWhile_sublist _)
          simpa using List.mem_takeWhile_imp hmem
        exact ⟨h1, h2⟩

theorem parseAfterScheme_roundtrip {host path : List Char} (b : Bool)
    (hh1 : host ≠ [])
    (hh2 : ∀ c ∈ host, isHostEnd c = false ∧ isBadHostChar c = false)
    (hp1 : path.head? = some '/')
    (hp2 : ∀ c ∈ path, c ≠ '?' ∧ c ≠ '#') :
    parseAfterScheme b (host ++ path) = some ⟨b, host, path, [], []⟩ := by
  have hpne : path ≠ [] := by intro e; rw [e] at hp1; cases hp1
  have hsplit := takeWhile_append_of (fun c => !isHostEnd c) host path
    (fun c hc => by simp [(hh2 c hc).1])
    (fun c hc => by
      rw [hp1, Option.some.injEq] at hc
      subst hc
      decide)
  have hany : host.any isBadHostChar = false := by
    rw [Bool.eq_false_iff]
    intro hx
    obtain ⟨c, hc, hbad⟩ := List.any_eq_true.mp hx
    rw [(hh2 c hc).2] at hbad
    cases hbad
  have hEm : host.isEmpty = false := by
    cases host with
    | nil => exact absurd rfl hh1
    | cons a t => rfl
  have hbh := takeWhile_all (fun c => !(c = '#')) path
    (fun c hc => by simp [(hp2 c hc).2])
  have hq := takeWhile_all (fun c => !(c = '?')) path
    (fun c hc => by simp [(hp2 c hc).1])
  have hpEm : path.isEmpty = false := by
    cases path with
    | nil => exact absurd rfl hpne
    | cons a t => rfl
  simp only [parseAfterScheme, hsplit.1, hsplit.2, hany, hEm, Bool.or_self,
    Bool.false_eq_true, if_false, hbh.1, hbh.2, hq.1, hq.2, hpEm,
    Option.some.injEq]

theorem parseUrl_good {l : List Char} {u : Url} (h : parseUrl l = some u) :
    u.host ≠ [] ∧
    (∀ c ∈ u.host, isHostEnd c = false ∧ isBadHostChar c = false) ∧
    u.path ≠ [] ∧ u.path.head? = some '/' ∧
    (∀ c ∈ u.path, c ≠ '?' ∧ c ≠ '#') := by
  unfold parseUrl at h
  cases h1 : stripCI httpsHead l with
  | some rest =>
    rw [h1] at h
    have := parseAfterScheme_good h
    exact ⟨this.2.1, this.2.2.1, this.2.2.2.1, this.2.2.2.2.1, this.2.2.2.2.2⟩
  | none =>
    rw [h1] at h
    cases h2 : stripCI httpHead l with
    | some rest =>
      rw [h2] at h
      have := parseAfterScheme_good h
      exact ⟨this.2.1, this.2.2.1, this.2.2.2.1, this.2.2.2.2.1, this.2.2.2.2.2⟩
    | none => rw [h2] at h; cases h

theorem serializeUrl_scheme_split (u : Url) :
    serializeUrl u = (if u.secure then httpsHead else httpHead) ++
      (u.host ++ u.path ++ u.search ++ u.hash) := by
  simp [serializeUrl, List.append_assoc]

theorem parseUrl_roundtrip {b : Bool} {host path : List Char}
    (hh1 : host ≠ [])
    (hh2 : ∀ c ∈ host, isHostEnd c = false ∧ isBadHostChar c = false)
    (hp1 : path.head? = some '/')
    (hp2 : ∀ c ∈ path, c ≠ '?' ∧ c ≠ '#') :
    parseUrl (serializeUrl ⟨b, host, path, [], []⟩) = some ⟨b, host, path, [], []⟩ := by
  rw [serializeUrl_scheme_split]
  dsimp only
  rw [List.append_nil, List.append_nil]
  cases b with
  | true =>
    rw [if_pos rfl]
    unfold parseUrl
    rw [stripCI_self_append httpsHead (host ++ path) lowerAscii_httpsHead]
    exact parseAfterScheme_roundtrip true hh1 hh2 hp1 hp2
  | false =>
    rw [if_neg (by simp)]
    unfold parseUrl
    rw [stripCI_https_of_http (host ++ path),
      stripCI_self_append httpHead (host ++ path) lowerAscii_httpHead]
    exact parseAfterScheme_roundtrip false hh1 hh2 hp1 hp2

theorem jsTrim_id {l : List Char} {a z : Char}
    (h1 : l.head? = some a) (h2 : a.isWhitespace = false)
    (h3 : l.getLast? = some z) (h4 : z.isWhitespace = false) :
    jsTrim l = l := by
  unfold jsTrim
  have e1 : l.dropWhile Char.isWhitespace = l := by
    cases l with
    | nil => rfl
    | cons c t =>
      rw [List.head?_cons, Option.some.injEq] at h1
      subst h1
      rw [List.dropWhile_cons, if_neg (by simp [h2])]
  rw [e1]
  have e2 : l.reverse.dropWhile Char.isWhitespace = l.reverse := by
    cases hr : l.reverse with
    | nil => rfl
    | cons c t =>
      have hcz : (c :: t : List Char).head? = l.getLast? := by
        rw [← hr, List.head?_reverse]
      rw [h3, List.head?_cons, Option.some.injEq] at hcz
      rw [List.dropWhile_cons, if_neg (by simp [hcz, h4])]
  rw [e2, List.reverse_reverse]

theorem serializeUrl_head {b : Bool} {host path : List Char} :
    (serializeUrl ⟨b, host, path, [], []⟩).head? = some 'h' := by
  cases b <;> rfl

theorem serializeUrl_getLast {b : Bool} {host path : List Char}
    (hpne : path ≠ []) (hlast : path.getLast? = some '1') :
    (serializeUrl ⟨b, host, path, [], []⟩).getLast? = some '1' := by
  rw [serializeUrl_scheme_split]
  dsimp only
  rw [List.append_nil, List.append_nil,
    List.getLast?_append_of_ne_nil _ (by simp [hpne]),
    List.getLast?_append_of_ne_nil _ hpne, hlast]

theorem dropLastSlash_id {l : List Char} (h : l.getLast? = some '1') :
    dropLastSlash l = l := by
  unfold dropLastSlash
  rw [if_neg (by rw [h]; decide)]

theorem hasProtocol_serializeUrl {b : Bool} {host path : List Char} :
    hasProtocol (serializeUrl ⟨b, host, path, [], []⟩) = true := by
  rw [serializeUrl_scheme_split]
  dsimp only
  rw [List.append_nil, List.append_nil]
  cases b with
  | true =>
    rw [if_pos rfl]
    unfold hasProtocol
    rw [stripCI_self_append httpsHead (host ++ path) lowerAscii_httpsHead]
    rfl
  | false =>
    rw [if_neg (by simp)]
    unfold hasProtocol
    rw [stripCI_https_of_http (host ++ path),
      stripCI_self_append httpHead (host ++ path) lowerAscii_httpHead]
    rfl

theorem normalizeParsed_fixpoint {u : Url}
    (hh1 : u.host ≠ [])
    (hh2 : ∀ c ∈ u.host, isHostEnd c = false ∧ isBadHostChar c = false)
    (hp1 : u.path.head? = some '/')
    (hp2 : ∀ c ∈ u.path, c ≠ '?' ∧ c ≠ '#') :
    normalizeResourceUrl (some (normalizeParsed u)) = some (normalizeParsed u) ∧
    v1Chars.isSuffixOf (normalizeParsed u) = true := by
  obtain ⟨b, host, path, search, hash⟩ := u
  dsimp only at hh1 hh2 hp1 hp2
  obtain ⟨nphead, npmem, npsuf, nplast⟩ := normalizePath_good hp1 hp2
  have npne : normalizePath path ≠ [] := by
    intro e; rw [e] at nplast; cases nplast
  have hnp : normalizeParsed ⟨b, host, path, search, hash⟩ =
      serializeUrl ⟨b, host, normalizePath path, [], []⟩ := by
    unfold normalizeParsed
    exact dropLastSlash_id (serializeUrl_getLast npne nplast)
  rw [hnp]
  constructor
  · have hytrim : jsTrim (serializeUrl ⟨b, host, normalizePath path, [], []⟩) =
        serializeUrl ⟨b, host, normalizePath path, [], []⟩ :=
      jsTrim_id serializeUrl_head (by decide)
        (serializeUrl_getLast npne nplast) (by decide)
    have hyne : serializeUrl ⟨b, host, normalizePath path, [], []⟩ ≠ [] := by
      intro e
      have h := @serializeUrl_head b host (normalizePath path)
      rw [e] at h
      cases h
    have hEmp : ¬ ((serializeUrl
        ⟨b, host, normalizePath path, [], []⟩).isEmpty = true) := by
      simp [List.isEmpty_iff, hyne]
    have hProt : hasProtocol (serializeUrl
        ⟨b, host, normalizePath path, [], []⟩) = true :=
      hasProtocol_serializeUrl
    simp only [normalizeResourceUrl, Option.map_some', Option.getD_some, hytrim]
    rw [if_neg hEmp, if_pos hProt]
    rw [parseUrl_roundtrip hh1 hh2 nphead npmem, Option.map_some']
    congr 1
    unfold normalizeParsed
    dsimp only
    rw [normalizePath_idem npsuf nplast]
    exact dropLastSlash_id (serializeUrl_getLast npne nplast)
  · rw [List.isSuffixOf_iff_suffix, serializeUrl_scheme_split]
    dsimp only
    rw [List.append_nil, List.append_nil]
    exact (npsuf.trans (List.suffix_append host _)).trans (List.suffix_append _ _)

/-- C6: normalizeResourceUrl is idempotent on its whole domain — whenever one
application succeeds, a second application on the result returns it unchanged
(and when the first application fails, the composition fails identically) —
and every produced string ends in the characters "/v1", hence with no
trailing slash; the missing/blank-input default is the case x = none. -/
theorem normalizeResourceUrl_idempotent :
    ∀ x y, normalizeResourceUrl x = some y →
      normalizeResourceUrl (some y) = some y ∧
      v1Chars.isSuffixOf y = true := by
  intro x y hxy
  simp only [normalizeResourceUrl] at hxy
  rw [Option.map_eq_some'] at hxy
  obtain ⟨u, hu, hy⟩ := hxy
  have g := parseUrl_good hu
  have h := normalizeParsed_fixpoint g.1 g.2.1 g.2.2.2.1 g.2.2.2.2
  rwa [hy] at h

/-- C6 witness: the concrete output of normalizing "example.com" is a
fixpoint of normalizeResourceUrl and ends in "/v1". -/
theorem normalizeResourceUrl_idempotent_witness :
    normalizeResourceUrl (some "https://example.com/v1".data) =
      some "https://example.com/v1".data ∧
    v1Chars.isSuffixOf "https://example.com/v1".data = true :=
  normalizeResourceUrl_idempotent (some "example.com".data)
    "https://example.com/v1".data (by decide)

theorem applyStep_check_inv {s s' : SFState} {i : Nat}
    (h : applyStep s (.check i) = some s') :
    s.callers.get? i = some .ready ∧
    ((∃ op, s.slot = some op ∧
        s' = { s with callers := s.callers.set i (.waiting op) }) ∨
     (s.slot = none ∧ s' = ⟨some s.results.length, s.results ++ [none],
        s.callers.set i (.waiting s.results.length)⟩)) := by
  simp only [applyStep] at h
  cases hc : s.callers.get? i with
  | none => rw [hc] at h; cases h
  | some pc =>
    rw [hc] at h
    cases pc with
    | ready =>
      cases hs : s.slot with
      | some op =>
        rw [hs] at h
        rw [Option.some.injEq] at h
        exact ⟨rfl, Or.inl ⟨op, rfl, h.symm⟩⟩
      | none =>
        rw [hs] at h
        rw [Option.some.injEq] at h
        exact ⟨rfl, Or.inr ⟨rfl, h.symm⟩⟩
    | waiting op => cases h
    | done r => cases h

theorem applyStep_settle_inv {s s' : SFState} {op : Nat} {r : QwenCredentials}
    (h : applyStep s (.settle op r) = some s') :
    s.results.get? op = some none ∧
    s' = { s with results := s.results.set op (some r) } := by
  simp only [applyStep] at h
  cases hres : s.results.get? op with
  | none => rw [hres] at h; cases h
  | some v =>
    rw [hres] at h
    cases v with
    | none =>
      rw [Option.some.injEq] at h
      exact ⟨rfl, h.symm⟩
    | some r' => cases h

theorem applyStep_resume_inv {s s' : SFState} {i : Nat}
    (h : applyStep s (.resume i) = some s') :
    ∃ op r, s.callers.get? i = some (.waiting op) ∧
      s.results.get? op = some (some r) ∧
      s' = { s with slot := none, callers := s.callers.set i (.done r) } := by
  simp only [applyStep] at h
  cases hc : s.callers.get? i with
  | none => rw [hc] at h; cases h
  | some pc =>
    rw [hc] at h
    cases pc with
    | ready => cases h
    | done r => cases h
    | waiting op =>
      dsimp only at h
      cases hres : s.results.get? op with
      | none => rw [hres] at h; cases h
      | some v =>
        rw [hres] at h
        cases v with
        | none => cases h
        | some r =>
          rw [Option.some.injEq] at h
          exact ⟨op, r, rfl, hres, h.symm⟩

theorem applyStep_callers_length {s s' : SFState} {st : SFStep}
    (h : applyStep s st = some s') : s'.callers.length = s.callers.length := by
  cases st with
  | check i =>
    obtain ⟨-, h2⟩ := applyStep_check_inv h
    rcases h2 with ⟨op, -, rfl⟩ | ⟨-, rfl⟩ <;> simp
  | settle op r =>
    obtain ⟨-, rfl⟩ := applyStep_settle_inv h
    rfl
  | resume i =>
    obtain ⟨op, r, -, -, rfl⟩ := applyStep_resume_inv h
    simp

theorem runTrace_append {t1 t2 : List SFStep} :
    ∀ {s s' : SFState}, runTrace s (t1 ++ t2) = some s' →
      ∃ m, runTrace s t1 = some m ∧ runTrace m t2 = some s' := by
  induction t1 with
  | nil => intro s s' h; exact ⟨s, rfl, h⟩
  | cons st rest ih =>
    intro s s' h
    rw [List.cons_append] at h
    unfold runTrace at h
    cases ha : applyStep s st with
    | none => rw [ha] at h; cases h
    | some m1 =>
      rw [ha] at h
      obtain ⟨m, hm1, hm2⟩ := ih h
      refine ⟨m, ?_, hm2⟩
      unfold runTrace
      rw [ha]
      exact hm1

theorem runTrace_callers_length {t : List SFStep} :
    ∀ {s s' : SFState}, runTrace s t = some s' →
      s'.callers.length = s.callers.length := by
  induction t with
  | nil => intro s s' h; cases h; rfl
  | cons st rest ih =>
    intro s s' h
    unfold runTrace at h
    cases ha : applyStep s st with
    | none => rw [ha] at h; cases h
    | some m =>
      rw [ha] at h
      rw [ih h, applyStep_callers_length ha]

theorem ready_persists {t : List SFStep} :
    ∀ {s s' : SFState} {i : Nat}, (∀ st ∈ t, isCheck st = false) →
      runTrace s t = some s' → s.callers.get? i = some .ready →
      s'.callers.get? i = some .ready := by
  induction t with
  | nil => intro s s' i _ h hr; cases h; exact hr
  | cons st rest ih =>
    intro s s' i hnc h hr
    unfold runTrace at h
    cases ha : applyStep s st with
    | none => rw [ha] at h; cases h
    | some m =>
      rw [ha] at h
      refine ih (fun x hx => hnc x (List.mem_cons_of_mem st hx)) h ?_
      cases st with
      | check j =>
        have := hnc _ (List.mem_cons_self _ _)
        simp [isCheck] at this
      | settle op r =>
        obtain ⟨-, rfl⟩ := applyStep_settle_inv ha
        exact hr
      | resume j =>
        obtain ⟨op, r, hj, -, rfl⟩ := applyStep_resume_inv ha
        have hij : j ≠ i := by
          intro e; rw [e, hr] at hj; cases hj
        dsimp only
        rw [List.get?_set_ne _ _ hij]
        exact hr

theorem phase1_preserved {s s' : SFState} {st : SFStep}
    (hinv : phase1Inv s) (hnr : isResume st = false)
    (h : applyStep s st = some s') : phase1Inv s' := by
  cases st with
  | check i =>
    obtain ⟨hready, hbr⟩ := applyStep_check_inv h
    rcases hinv with ⟨hs, hres, hc⟩ | ⟨hs, hres, hc⟩
    · rcases hbr with ⟨op, hop, rfl⟩ | ⟨-, rfl⟩
      · rw [hs] at hop; cases hop
      · right
        refine ⟨by rw [hres]; rfl, by rw [hres]; exact Or.inl rfl, ?_⟩
        intro c hcm
        rcases List.mem_or_eq_of_mem_set hcm with hin | rfl
        · exact Or.inl (hc c hin)
        · rw [hres]
          exact Or.inr rfl
    · rcases hbr with ⟨op, hop, rfl⟩ | ⟨hnone, rfl⟩
      · right
        rw [hs] at hop
        rw [Option.some.injEq] at hop
        subst hop
        refine ⟨hs, hres, ?_⟩
        intro c hcm
        rcases List.mem_or_eq_of_mem_set hcm with hin | rfl
        · exact hc c hin
        · exact Or.inr rfl
      · rw [hs] at hnone; cases hnone
  | settle op r =>
    obtain ⟨hres0, rfl⟩ := applyStep_settle_inv h
    rcases hinv with ⟨hs, hres, hc⟩ | ⟨hs, hres, hc⟩
    · rw [hres] at hres0; cases op <;> cases hres0
    · rcases hres with hres | ⟨r', hres⟩
      · right
        refine ⟨hs, ?_, hc⟩
        rw [hres]
        cases op with
        | zero => exact Or.inr ⟨r, rfl⟩
        | succ k =>
          rw [hres] at hres0
          cases hres0
      · rw [hres] at hres0
        cases op with
        | zero => cases hres0
        | succ k => cases hres0
  | resume i => simp [isResume] at hnr

theorem phase2_preserved {s s' : SFState} {st : SFStep}
    (hinv : phase2Inv s) (hnc : isCheck st = false)
    (h : applyStep s st = some s') : phase2Inv s' := by
  cases st with
  | check i => simp [isCheck] at hnc
  | settle op r =>
    obtain ⟨hres0, rfl⟩ := applyStep_settle_inv h
    rcases hinv with ⟨hres, hs, hc⟩ | ⟨r', hres, hc, hdone, hsl⟩
    · right
      refine ⟨r, ?_, ?_, ?_, Or.inl hs⟩
      · rw [hres]
        cases op with
        | zero => rfl
        | succ k => rw [hres] at hres0; cases hres0
      · intro c hcm
        exact Or.inl (hc c hcm)
      · intro ⟨c, hcm, hcne⟩
        exact absurd (hc c hcm) hcne
    · rw [hres] at hres0
      cases op with
      | zero => cases hres0
      | succ k => cases hres0
  | resume i =>
    obtain ⟨op, r, hwait, hres0, rfl⟩ := applyStep_resume_inv h
    rcases hinv with ⟨hres, hs, hc⟩ | ⟨r', hres, hc, hdone, hsl⟩
    · have hmem : CallerPC.waiting op ∈ s.callers := by
        rw [List.mem_iff_get?]
        exact ⟨i, hwait⟩
      have := hc _ hmem
      rw [CallerPC.waiting.injEq] at this
      subst this
      rw [hres] at hres0
      cases hres0
    · have hmem : CallerPC.waiting op ∈ s.callers := by
        rw [List.mem_iff_get?]
        exact ⟨i, hwait⟩
      rcases hc _ hmem with hw | hd
      · rw [CallerPC.waiting.injEq] at hw
        subst hw
        rw [hres] at hres0
        simp only [List.get?_cons_zero, Option.some.injEq] at hres0
        subst hres0
        right
        refine ⟨r', hres, ?_, fun _ => rfl, Or.inr rfl⟩
        intro c hcm
        rcases List.mem_or_eq_of_mem_set hcm with hin | rfl
        · exact hc c hin
        · exact Or.inr rfl
      · cases hd

theorem phase1_run {t : List SFStep} :
    ∀ {s s' : SFState}, phase1Inv s → (∀ st ∈ t, isResume st = false) →
      runTrace s t = some s' → phase1Inv s' := by
  induction t with
  | nil => intro s s' hinv _ h; cases h; exact hinv
  | cons st rest ih =>
    intro s s' hinv hnr h
    unfold runTrace at h
    cases ha : applyStep s st with
    | none => rw [ha] at h; cases h
    | some m =>
      rw [ha] at h
      exact ih (phase1_preserved hinv (hnr st (List.mem_cons_self _ _)) ha)
        (fun x hx => hnr x (List.mem_cons_of_mem st hx)) h

theorem phase2_run {t : List SFStep} :
    ∀ {s s' : SFState}, phase2Inv s → (∀ st ∈ t, isCheck st = false) →
      runTrace s t = some s' → phase2Inv s' := by
  induction t with
  | nil => intro s s' hinv _ h; cases h; exact hinv
  | cons st rest ih =>
    intro s s' hinv hnc h
    unfold runTrace at h
    cases ha : applyStep s st with
    | none => rw [ha] at h; cases h
    | some m =>
      rw [ha] at h
      exact ih (phase2_preserved hinv (hnc st (List.mem_cons_self _ _)) ha)
        (fun x hx => hnc x (List.mem_cons_of_mem st hx)) h

/-- C1: for every interleaving of n concurrent getValidCredentials callers
that all require a refresh — each caller inspects the refreshPromise slot
before any caller has resumed, formalized by splitting the trace into a
resume-free part followed by a check-free part — exactly one refresh
operation is ever created (the model performs exactly one token-endpoint
network call per operation), every caller finishes with the same credential,
the slot is empty once the operation has settled and all callers finished,
and a subsequent caller needing a refresh immediately starts a fresh
operation. -/
theorem single_flight_refresh
    (n : Nat) (t1 t2 : List SFStep) (final : SFState)
    (hn : 0 < n)
    (h1 : ∀ st ∈ t1, isResume st = false)
    (h2 : ∀ st ∈ t2, isCheck st = false)
    (hrun : runTrace (initState n) (t1 ++ t2) = some final)
    (hdone : allDone final = true) :
    final.results.length = 1 ∧
    (∃ r, final.results = [some r] ∧
       ∀ c ∈ final.callers, c = CallerPC.done r) ∧
    final.slot = none ∧
    (∃ g', applyStep ⟨final.slot, final.results,
         final.callers ++ [CallerPC.ready]⟩ (.check final.callers.length) = some g' ∧
       g'.results.length = final.results.length + 1 ∧
       g'.slot = some final.results.length) := by
  obtain ⟨m, hm1, hm2⟩ := runTrace_append hrun
  have hlenm : m.callers.length = n := by
    rw [runTrace_callers_length hm1]
    simp [initState]
  have hlenf : final.callers.length = n := by
    rw [runTrace_callers_length hm2, hlenm]
  simp only [allDone, List.all_eq_true] at hdone
  have hinv1 : phase1Inv m :=
    phase1_run (Or.inl ⟨rfl, rfl, fun c hc => List.eq_of_mem_replicate hc⟩)
      h1 hm1
  have hnoready : ∀ i, m.callers.get? i ≠ some CallerPC.ready := by
    intro i hr
    have hfr := ready_persists h2 hm2 hr
    have hmem : CallerPC.ready ∈ final.callers := by
      rw [List.mem_iff_get?]
      exact ⟨i, hfr⟩
    have := hdone _ hmem
    simp at this
  have hallw : ∀ c ∈ m.callers, c = CallerPC.waiting 0 := by
    intro c hc
    obtain ⟨i, hi⟩ := List.mem_iff_get?.mp hc
    rcases hinv1 with ⟨-, -, hall⟩ | ⟨-, -, hall⟩
    · exact absurd (by rw [← hall c hc]; exact hi) (hnoready i)
    · rcases hall c hc with hr | hw
      · exact absurd (by rw [← hr]; exact hi) (hnoready i)
      · exact hw
  have hmne : m.callers ≠ [] := by
    intro e
    rw [e] at hlenm
    simp at hlenm
    omega
  obtain ⟨c0, hc0⟩ : ∃ c, c ∈ m.callers := by
    cases hcl : m.callers with
    | nil => exact absurd hcl hmne
    | cons a t => exact ⟨a, List.mem_cons_self _ _⟩
  rcases hinv1 with ⟨-, -, hall⟩ | ⟨hslot, hres, -⟩
  · have h1 := hall c0 hc0
    have h2 := hallw c0 hc0
    rw [h1] at h2
    cases h2
  have hinv2 : phase2Inv m := by
    rcases hres with hres | ⟨r, hres⟩
    · exact Or.inl ⟨hres, hslot, hallw⟩
    · right
      refine ⟨r, hres, fun c hc => Or.inl (hallw c hc), ?_, Or.inl hslot⟩
      intro ⟨c, hc, hne⟩
      exact absurd (hallw c hc) hne
  have hinvf : phase2Inv final := phase2_run hinv2 h2 hm2
  have hfne : final.callers ≠ [] := by
    intro e
    rw [e] at hlenf
    simp at hlenf
    omega
  obtain ⟨cf, hcf⟩ : ∃ c, c ∈ final.callers := by
    cases hcl : final.callers with
    | nil => exact absurd hcl hfne
    | cons a t => exact ⟨a, List.mem_cons_self _ _⟩
  rcases hinvf with ⟨-, -, hall⟩ | ⟨r, hres, hall, hdslot, -⟩
  · have := hdone _ hcf
    rw [hall _ hcf] at this
    simp at this
  have hdall : ∀ c ∈ final.callers, c = CallerPC.done r := by
    intro c hc
    rcases hall c hc with hw | hd
    · have := hdone _ hc
      rw [hw] at this
      simp at this
    · exact hd
  have hslotnone : final.slot = none := by
    apply hdslot
    refine ⟨cf, hcf, ?_⟩
    rw [hdall cf hcf]
    intro e
    cases e
  refine ⟨by rw [hres]; rfl, ⟨r, hres, hdall⟩, hslotnone, ?_⟩
  refine ⟨⟨some final.results.length, final.results ++ [none],
      (final.callers ++ [CallerPC.ready]).set final.callers.length
        (CallerPC.waiting final.results.length)⟩, ?_, by simp, rfl⟩
  simp only [applyStep]
  rw [List.get?_concat_length, hslotnone]

/-- C1 witness: two concurrent callers that both check the slot before the
operation settles share one operation, finish with the same credential, and
leave the slot empty. -/
theorem single_flight_refresh_witness :
    runTrace (initState 2)
      [SFStep.check 0, SFStep.check 1,
       SFStep.settle 0 ⟨some "a", none, none, none, none⟩,
       SFStep.resume 0, SFStep.resume 1] =
      some ⟨none, [some ⟨some "a", none, none, none, none⟩],
        [CallerPC.done ⟨some "a", none, none, none, none⟩,
         CallerPC.done ⟨some "a", none, none, none, none⟩]⟩ ∧
    (⟨none, [some ⟨some "a", none, none, none, none⟩],
        [CallerPC.done ⟨some "a", none, none, none, none⟩,
         CallerPC.done ⟨some "a", none, none, none, none⟩]⟩ : SFState).results.length = 1 ∧
    (⟨none, [some ⟨some "a", none, none, none, none⟩],
        [CallerPC.done ⟨some "a", none, none, none, none⟩,
         CallerPC.done ⟨some "a", none, none, none, none⟩]⟩ : SFState).slot = none := by
  have h := single_flight_refresh 2
    [SFStep.check 0, SFStep.check 1,
     SFStep.settle 0 ⟨some "a", none, none, none, none⟩]
    [SFStep.resume 0, SFStep.resume 1]
    ⟨none, [some ⟨some "a", none, none, none, none⟩],
      [CallerPC.done ⟨some "a", none, none, none, none⟩,
       CallerPC.done ⟨some "a", none, none, none, none⟩]⟩
    (by decide) (by decide) (by decide) (by decide) (by decide)
  exact ⟨by decide, h.1, h.2.2.1⟩
